import Mathlib

/-!
Verification of the expiring key-value session store in
`lib/connect-better-sqlite3.js` (a `better-sqlite3`-backed session store).

The store keeps one table of rows `(id PRIMARY KEY, expires_at INTEGER, data BLOB)`.
We model the table as a list of rows, the prepared statements as pure list
transformations that mirror their SQL, and each store method as the function
the JavaScript method body denotes: a `try/catch` body becomes an
`Option`-valued result (`none` = the callback received an error), and a body
with no `try/catch` (only `gc`) becomes an `Option`-valued state whose `none`
means the exception escaped the caller.

Session values are modelled by `JsonVal` (integers, strings and objects, the
shapes the specification's round-trip property names).  The default `JSON`
serializer is modelled by an executable encoder/decoder on `JsonVal` for which
the round-trip law is proved; non-integer numbers and the `\uXXXX`/control
escape forms of full JSON are outside the model.
-/

namespace CBS

/-- JSON-like session values: numbers (modelled as integers), strings, and
objects given as ordered field lists. -/
inductive JsonVal where
  | num (n : Int)
  | str (s : String)
  | obj (fields : List (String × JsonVal))

/-- Field lookup in an object's field list (first match, like a JS property). -/
def lookupField : List (String × JsonVal) → String → Option JsonVal
  | [], _ => none
  | (k, v) :: rest, key => if k = key then some v else lookupField rest key

/-- JS property access `v[key]`: `none` models `undefined` (also for
primitives, whose relevant property reads are undefined here). -/
def getProp : JsonVal → String → Option JsonVal
  | .obj fs, key => lookupField fs key
  | _, _ => none

/-- JS truthiness of a modelled value: `0` and `""` are falsy, objects truthy. -/
def jsTruthy : JsonVal → Bool
  | .num n => !(n == 0)
  | .str s => !(s == "")
  | .obj _ => true

/-- The nested expiry hint the spec describes: the value found at
`value.cookie.maxAge`, if any. -/
def maxAgeHint (sess : JsonVal) : Option JsonVal :=
  (getProp sess "cookie").bind (fun c => getProp c "maxAge")

/-- Model of `SQLiteStore._getTTL`: mirrors
`if (sess && sess.cookie && sess.cookie.maxAge) ttl = sess.cookie.maxAge; else ttl = this.ttl`.
A missing property is `undefined` (falsy); `0` is falsy.  A truthy
non-numeric `maxAge` would drive JavaScript's implicit coercions outside the
integer model, so the model is stated for numeric hints and falls back to the
store default elsewhere. -/
def _getTTL (storeTtl : Int) (sess : JsonVal) : Int :=
  if jsTruthy sess then
    match getProp sess "cookie" with
    | some cookie =>
      if jsTruthy cookie then
        match getProp cookie "maxAge" with
        | some (.num n) => if n == 0 then storeTtl else n
        | _ => storeTtl
      else storeTtl
    | none => storeTtl
  else storeTtl

/-- One row of the sessions table. -/
structure Row where
  id : String
  expires_at : Int
  data : String
deriving DecidableEq, Repr

/-- Store state: the table rows, the configured default TTL, whether the
database connection is open, and whether the daily gc interval is scheduled. -/
structure Store where
  rows : List Row
  ttl : Int
  dbOpen : Bool
  timerActive : Bool

/-- A pluggable serializer (`options.serializer`): `stringify` encodes, `parse`
decodes, with `none` modelling a thrown decode error. -/
structure Serializer where
  stringify : JsonVal → String
  parse : String → Option JsonVal

/-- One day in milliseconds (`ONE_DAY`). -/
def ONE_DAY : Int := 86400000

/-- JS `x || default` on an optional integer option (`0` is falsy). -/
def orDefaultInt : Option Int → Int → Int
  | some v, d => if v == 0 then d else v
  | none, d => d

/-- JS `x || default` on an optional string option (`""` is falsy). -/
def orDefaultStr : Option String → String → String
  | some s, d => if s == "" then d else s
  | none, d => d

/-- Constructor options relevant to the modelled behavior. -/
structure Options where
  filename : Option String := none
  dir : Option String := none
  ttl : Option Int := none

/-- Model of the constructor's store state: a fresh table, the resolved default
TTL (`options.ttl || ONE_DAY`), an open connection, and the gc interval
scheduled (`this.interval = setInterval(this.gc.bind(this), ONE_DAY)`). -/
def mkStore (opts : Options) : Store :=
  { rows := [], ttl := orDefaultInt opts.ttl ONE_DAY, dbOpen := true, timerActive := true }

/-- List-level test that `pat` is a leading segment of `text`. -/
def startsWithList : List Char → List Char → Bool
  | [], _ => true
  | _ :: _, [] => false
  | p :: ps, t :: ts => p == t && startsWithList ps ts

/-- Substring containment, mirroring `text.indexOf(pat) > -1`. -/
def containsSub (pat : List Char) : List Char → Bool
  | [] => startsWithList pat []
  | c :: ts => startsWithList pat (c :: ts) || containsSub pat ts

/-- Model of `path.join(dir, filename)` as used here: the branch structure, not
the platform normalization, is what the claims are about. -/
def pathJoin (dir filename : String) : String := dir ++ "/" ++ filename

/-- Model of the constructor's database-path choice:
`if (this.filename.indexOf(":memory:") > -1) this.dbPath = ":memory:"; else`
join `dir` and `filename`. -/
def dbPath (dir filename : String) : String :=
  if containsSub ":memory:".data filename.data then ":memory:" else pathJoin dir filename

/-- `gcStmt`: `DELETE FROM t WHERE expires_at < ?` run with `now`. -/
def gcStmt (now : Int) (rows : List Row) : List Row :=
  rows.filter (fun r => !(decide (r.expires_at < now)))

/-- `getStmt`: `SELECT data FROM t WHERE id = ? AND expires_at >= ?` (zero or
one row; the table keys rows by id). -/
def getStmt (id : String) (now : Int) (rows : List Row) : Option String :=
  (rows.find? (fun r => r.id == id && decide (now ≤ r.expires_at))).map Row.data

/-- `setStmt`: `INSERT OR REPLACE INTO t (id, expires_at, data) VALUES (...)`. -/
def setStmt (id : String) (expires_at : Int) (data : String) (rows : List Row) : List Row :=
  ⟨id, expires_at, data⟩ :: rows.filter (fun r => !(r.id == id))

/-- `destroyStmt`: `DELETE FROM t WHERE id = ?`. -/
def destroyStmt (id : String) (rows : List Row) : List Row :=
  rows.filter (fun r => !(r.id == id))

/-- `lengthStmt`: `SELECT COUNT(id) FROM t WHERE expires_at >= ?`. -/
def lengthStmt (now : Int) (rows : List Row) : Nat :=
  (rows.filter (fun r => decide (now ≤ r.expires_at))).length

/-- `touchStmt`: `UPDATE t SET expires_at=? WHERE id=? AND expires_at >= ?`. -/
def touchStmt (expires_at : Int) (id : String) (now : Int) (rows : List Row) : List Row :=
  rows.map (fun r =>
    if r.id == id && decide (now ≤ r.expires_at) then { r with expires_at := expires_at } else r)

/-- Insertion step for `ORDER BY id`. -/
def insertById (r : Row) : List Row → List Row
  | [] => [r]
  | x :: xs => if r.id ≤ x.id then r :: x :: xs else x :: insertById r xs

/-- Sort rows by id, modelling `ORDER BY id`. -/
def sortById : List Row → List Row
  | [] => []
  | x :: xs => insertById x (sortById xs)

/-- `allStmt`: `SELECT data FROM t WHERE expires_at >= ? ORDER BY id`. -/
def allStmt (now : Int) (rows : List Row) : List String :=
  (sortById (rows.filter (fun r => decide (now ≤ r.expires_at)))).map Row.data

/-- Outcome of `get`: the default callback convention distinguishes an absent
record (`cb()` with no arguments), a decoded value, and an error (`cb(err)`). -/
inductive GetResult where
  | absent
  | value (v : JsonVal)
  | error

/-- Model of `SQLiteStore.get`: run `getStmt` at the current time; a missing or
falsy payload (`if (!data) return cb()`) yields `absent`; otherwise the payload
is decoded with `this.serializer.parse`, a decode failure yielding `error`.  A
closed database makes the statement throw, caught as `error`. -/
def get (S : Serializer) (now : Int) (id : String) (st : Store) : GetResult :=
  if st.dbOpen then
    match getStmt id now st.rows with
    | none => .absent
    | some data =>
      if data == "" then .absent
      else
        match S.parse data with
        | some v => .value v
        | none => .error
  else .error

/-- Model of `SQLiteStore.set`: `expires_at = now + this._getTTL(sess)`, the
value is serialized and upserted.  `none` in the first component models
`cb(err)`; on error the table is unchanged. -/
def set (S : Serializer) (now : Int) (id : String) (sess : JsonVal) (st : Store) :
    Option Unit × Store :=
  let expires_at := now + _getTTL st.ttl sess
  if st.dbOpen then
    (some (), { st with rows := setStmt id expires_at (S.stringify sess) st.rows })
  else (none, st)

/-- Model of `SQLiteStore.destroy`. -/
def destroy (id : String) (st : Store) : Option Unit × Store :=
  if st.dbOpen then (some (), { st with rows := destroyStmt id st.rows }) else (none, st)

/-- Model of `SQLiteStore.length` (the method has no `try/catch`; on a closed
database the statement's exception propagates, modelled as `none`). -/
def length (now : Int) (st : Store) : Option Nat :=
  if st.dbOpen then some (lengthStmt now st.rows) else none

/-- Model of `SQLiteStore.touch`: `expires_at = now + this._getTTL(sess)` is
written onto the still-active row with this id, if any. -/
def touch (now : Int) (id : String) (sess : JsonVal) (st : Store) : Option Unit × Store :=
  let expires_at := now + _getTTL st.ttl sess
  if st.dbOpen then
    (some (), { st with rows := touchStmt expires_at id now st.rows })
  else (none, st)

/-- Model of `SQLiteStore.clear`: drop and re-create the table. -/
def clear (st : Store) : Option Unit × Store :=
  if st.dbOpen then (some (), { st with rows := [] }) else (none, st)

/-- Model of `SQLiteStore.gc`.  The method body has no `try/catch`, so an
engine failure (for instance, a sweep after `close()`) is not contained: the
result is `none`, meaning the exception escaped the timer callback. -/
def gc (now : Int) (st : Store) : Option Store :=
  if st.dbOpen then some { st with rows := gcStmt now st.rows } else none

/-- Model of `SQLiteStore.close`: `this.db.close()` only; the gc interval is
not cleared. -/
def close (st : Store) : Store := { st with dbOpen := false }

/-! ### The default JSON serializer

The store's default serializer is the platform `JSON` object.  It is modelled
by an executable encoder and recursive-descent decoder over `JsonVal`.  String
escaping covers the two structural escapes (`\"` and `\\`); numbers are
decimal integers. -/

/-- Decimal digit character for `d < 10`. -/
def digitChar (d : Nat) : Char := Char.ofNat (48 + d)

/-- Bool test for an ASCII decimal digit. -/
def isDigitCh (c : Char) : Bool := decide (48 ≤ c.toNat) && decide (c.toNat ≤ 57)

/-- Numeric value of an ASCII digit. -/
def digitVal (c : Char) : Nat := c.toNat - 48

/-- Fuelled decimal rendering of a natural number (most significant digit
first); any `fuel > n` is enough. -/
def natCharsAux : Nat → Nat → List Char
  | 0, _ => []
  | fuel + 1, n =>
    if n < 10 then [digitChar n]
    else natCharsAux fuel (n / 10) ++ [digitChar (n % 10)]

/-- Decimal rendering of a natural number. -/
def natChars (n : Nat) : List Char := natCharsAux (n + 1) n

/-- Decimal rendering of an integer, with a leading minus sign if negative. -/
def intChars (n : Int) : List Char :=
  if n < 0 then '-' :: natChars n.natAbs else natChars n.natAbs

/-- JSON string-body escaping of `"` and `\`. -/
def escChars : List Char → List Char
  | [] => []
  | c :: cs => if c == '"' || c == '\\' then '\\' :: c :: escChars cs else c :: escChars cs

mutual

/-- JSON encoding of a value (the model of `JSON.stringify`). -/
def encodeVal : JsonVal → List Char
  | .num n => intChars n
  | .str s => '"' :: (escChars s.data ++ ['"'])
  | .obj fs => '{' :: (encodeFields fs ++ ['}'])

/-- JSON encoding of a nonempty field list, comma separated (an empty list
encodes to nothing, giving `{}`). -/
def encodeFields : List (String × JsonVal) → List Char
  | [] => []
  | [(k, v)] => encodeEntry k v
  | (k, v) :: rest => encodeEntry k v ++ ',' :: encodeFields rest

/-- JSON encoding of one `"key":value` entry. -/
def encodeEntry (k : String) (v : JsonVal) : List Char :=
  '"' :: (escChars k.data ++ '"' :: ':' :: encodeVal v)

end

/-- Model of `JSON.stringify`. -/
def jsonStringify (v : JsonVal) : String := ⟨encodeVal v⟩

/-- Greedy decimal-digit consumption with an accumulator. -/
def parseNatAux : List Char → Nat → Nat × List Char
  | [], acc => (acc, [])
  | c :: cs, acc =>
    if isDigitCh c then parseNatAux cs (acc * 10 + digitVal c) else (acc, c :: cs)

/-- Parse a JSON string body up to its closing quote, undoing `escChars`
(fuelled; each step consumes at least one character, so any fuel above the
input length is enough). -/
def parseStrChars : Nat → List Char → Option (List Char × List Char)
  | 0, _ => none
  | _ + 1, [] => none
  | fuel + 1, c :: cs =>
    if c == '"' then some ([], cs)
    else
      if c == '\\' then
        match cs with
        | [] => none
        | d :: cs' =>
          if d == '"' || d == '\\' then
            match parseStrChars fuel cs' with
            | some (s, r) => some (d :: s, r)
            | none => none
          else none
      else
        match parseStrChars fuel cs with
        | some (s, r) => some (c :: s, r)
        | none => none

mutual

/-- Fuelled JSON value parser; returns the value and the unconsumed rest. -/
def parseVal : Nat → List Char → Option (JsonVal × List Char)
  | 0, _ => none
  | fuel + 1, cs =>
    match cs with
    | [] => none
    | c :: rest =>
      if c == '"' then
        match parseStrChars (rest.length + 1) rest with
        | some (s, r) => some (.str ⟨s⟩, r)
        | none => none
      else
        if c == '{' then
          match rest with
          | [] => none
          | d :: rest2 =>
            if d == '}' then some (.obj [], rest2)
            else
              match parseFields fuel rest with
              | some (fs, r) => some (.obj fs, r)
              | none => none
        else
          if c == '-' then
            match rest with
            | [] => none
            | d :: _ =>
              if isDigitCh d then
                match parseNatAux rest 0 with
                | (n, r) => some (.num (-(n : Int)), r)
              else none
          else
            if isDigitCh c then
              match parseNatAux (c :: rest) 0 with
              | (n, r) => some (.num (n : Int), r)
            else none

/-- Fuelled parser for a nonempty `"k":v` field list up to and including the
closing `}`. -/
def parseFields : Nat → List Char → Option (List (String × JsonVal) × List Char)
  | 0, _ => none
  | fuel + 1, cs =>
    match cs with
    | [] => none
    | c :: cs1 =>
      if c == '"' then
        match parseStrChars (cs1.length + 1) cs1 with
        | some (k, cs2) =>
          match cs2 with
          | [] => none
          | d :: cs3 =>
            if d == ':' then
              match parseVal fuel cs3 with
              | some (v, cs4) =>
                match cs4 with
                | [] => none
                | e :: cs5 =>
                  if e == ',' then
                    match parseFields fuel cs5 with
                    | some (fs, r) => some ((⟨k⟩, v) :: fs, r)
                    | none => none
                  else if e == '}' then some ([(⟨k⟩, v)], cs5)
                  else none
              | none => none
            else none
        | none => none
      else none

end

/-- Model of `JSON.parse`: parse the whole string or fail (`none` models a
thrown `SyntaxError`). -/
def jsonParse (s : String) : Option JsonVal :=
  match parseVal (s.data.length + 1) s.data with
  | some (v, []) => some v
  | _ => none

/-- The default serializer (`options.serializer = JSON`). -/
def jsonSerializer : Serializer := ⟨jsonStringify, jsonParse⟩

/-- Model of `SQLiteStore.all`: list the active rows ordered by id and decode
each payload.  The source decodes with the hard-coded `JSON.parse`
(`.map((s) => JSON.parse(s))`), not with `this.serializer`, so the model's
decoder here is `jsonParse` whatever serializer the store was configured
with.  `none` models `cb(err)` (a decode failure aborts the whole call). -/
def all (now : Int) (st : Store) : Option (List JsonVal) :=
  if st.dbOpen then (allStmt now st.rows).mapM jsonParse else none

/-- Head-of-rest guard used by the number-parsing roundtrip: the rest must not
start with another digit (inside an encoded object it starts with `,` or `}`;
at top level it is empty). -/
def noDigitHead : List Char → Bool
  | [] => true
  | c :: _ => !isDigitCh c

mutual

/-- Node-count measure used as parser fuel. -/
def jsize : JsonVal → Nat
  | .num _ => 1
  | .str _ => 1
  | .obj fs => jsizeFields fs + 1

/-- Node-count measure for field lists. -/
def jsizeFields : List (String × JsonVal) → Nat
  | [] => 1
  | (_, v) :: rest => jsize v + jsizeFields rest + 1

end

/-- A non-JSON example serializer used to exercise serializer pluggability: it
prefixes the JSON encoding with `X`, and only decodes strings carrying that
prefix. -/
def xSerializer : Serializer :=
  { stringify := fun v => ⟨'X' :: (jsonStringify v).data⟩,
    parse := fun s =>
      match s.data with
      | 'X' :: cs => jsonParse ⟨cs⟩
      | _ => none }

/-! ### General list lemmas -/

theorem map_eq_self_of {α : Type} (l : List α) (f : α → α) (h : ∀ a ∈ l, f a = a) :
    l.map f = l := by
  induction l with
  | nil => rfl
  | cons a t ih =>
    simp only [List.map_cons, h a (List.mem_cons_self a t)]
    rw [ih (fun b hb => h b (List.mem_cons_of_mem a hb))]

theorem find?_filter_of_imp {α : Type} (l : List α) (p q : α → Bool)
    (h : ∀ a, p a = true → q a = true) : (l.filter q).find? p = l.find? p := by
  induction l with
  | nil => rfl
  | cons a t ih =>
    cases hq : q a with
    | true =>
      cases hp : p a with
      | true => simp [List.filter_cons, hq, List.find?_cons, hp]
      | false => simp [List.filter_cons, hq, List.find?_cons, hp, ih]
    | false =>
      have hp : p a = false := by
        cases hpa : p a with
        | false => rfl
        | true => rw [h a hpa] at hq; exact absurd hq (by simp)
      simp [List.filter_cons, hq, List.find?_cons, hp, ih]

theorem filter_filter_of_imp {α : Type} (l : List α) (p q : α → Bool)
    (h : ∀ a, p a = true → q a = true) : (l.filter q).filter p = l.filter p := by
  induction l with
  | nil => rfl
  | cons a t ih =>
    cases hq : q a with
    | true =>
      cases hp : p a with
      | true => simp [List.filter_cons, hq, hp, ih]
      | false => simp [List.filter_cons, hq, hp, ih]
    | false =>
      have hp : p a = false := by
        cases hpa : p a with
        | false => rfl
        | true => rw [h a hpa] at hq; exact absurd hq (by simp)
      simp [List.filter_cons, hq, hp, ih]

/-! ### Decimal rendering and parsing lemmas -/

theorem digitVal_digitChar (d : Nat) (h : d < 10) : digitVal (digitChar d) = d := by
  interval_cases d <;> rfl

theorem isDigitCh_digitChar (d : Nat) (h : d < 10) : isDigitCh (digitChar d) = true := by
  interval_cases d <;> rfl

theorem isDigitCh_ne (c : Char) (h : isDigitCh c = true) :
    c ≠ '"' ∧ c ≠ '{' ∧ c ≠ '-' ∧ c ≠ '}' ∧ c ≠ ',' ∧ c ≠ ':' ∧ c ≠ '\\' := by
  refine ⟨?_, ?_, ?_, ?_, ?_, ?_, ?_⟩ <;> rintro rfl <;> exact absurd h (by decide)

theorem natCharsAux_digits (fuel : Nat) :
    ∀ n, n < fuel → ∀ c ∈ natCharsAux fuel n, isDigitCh c = true := by
  induction fuel with
  | zero => intro n hn; omega
  | succ fuel ih =>
    intro n _ c hc
    rw [natCharsAux] at hc
    by_cases h10 : n < 10
    · rw [if_pos h10] at hc
      simp only [List.mem_singleton] at hc
      exact hc ▸ isDigitCh_digitChar n h10
    · rw [if_neg h10] at hc
      rcases List.mem_append.mp hc with h1 | h2
      · exact ih (n / 10) (by omega) c h1
      · simp only [List.mem_singleton] at h2
        exact h2 ▸ isDigitCh_digitChar (n % 10) (Nat.mod_lt n (by omega))

theorem natCharsAux_ne_nil (fuel n : Nat) (h : n < fuel) : natCharsAux fuel n ≠ [] := by
  cases fuel with
  | zero => omega
  | succ fuel =>
    rw [natCharsAux]
    by_cases h10 : n < 10
    · rw [if_pos h10]; simp
    · rw [if_neg h10]; simp

theorem natCharsAux_foldl (fuel : Nat) :
    ∀ n acc, n < fuel →
      (natCharsAux fuel n).foldl (fun a c => a * 10 + digitVal c) acc =
        acc * 10 ^ (natCharsAux fuel n).length + n := by
  induction fuel with
  | zero => intro n acc hn; omega
  | succ fuel ih =>
    intro n acc hn
    rw [natCharsAux]
    by_cases h10 : n < 10
    · rw [if_pos h10]
      simp only [List.foldl_cons, List.foldl_nil, List.length_singleton, pow_one,
        digitVal_digitChar n h10]
    · rw [if_neg h10]
      have hdiv : n / 10 < fuel := by
        have h1 : n / 10 < n := Nat.div_lt_self (by omega) (by omega)
        omega
      rw [List.foldl_append, ih (n / 10) acc hdiv]
      simp only [List.foldl_cons, List.foldl_nil, List.length_append,
        List.length_singleton, digitVal_digitChar (n % 10) (Nat.mod_lt n (by omega))]
      rw [pow_succ]
      have hmod : 10 * (n / 10) + n % 10 = n := Nat.div_add_mod n 10
      ring_nf
      omega

theorem parseNatAux_digits (ds : List Char) :
    ∀ rest acc, (∀ c ∈ ds, isDigitCh c = true) → noDigitHead rest = true →
      parseNatAux (ds ++ rest) acc =
        (ds.foldl (fun a c => a * 10 + digitVal c) acc, rest) := by
  induction ds with
  | nil =>
    intro rest acc _ hrest
    cases rest with
    | nil => rfl
    | cons c t =>
      simp only [noDigitHead, Bool.not_eq_true'] at hrest
      simp only [List.nil_append, List.foldl_nil, parseNatAux, hrest]
      simp
  | cons d ds ih =>
    intro rest acc hds hrest
    have hd : isDigitCh d = true := hds d (List.mem_cons_self d ds)
    simp only [List.cons_append, parseNatAux, hd, if_pos trivial, List.foldl_cons]
    exact ih rest (acc * 10 + digitVal d) (fun c hc => hds c (List.mem_cons_of_mem d hc)) hrest

theorem parseNatAux_natChars (n : Nat) (rest : List Char) (hrest : noDigitHead rest = true) :
    parseNatAux (natChars n ++ rest) 0 = (n, rest) := by
  rw [natChars, parseNatAux_digits _ _ _ (natCharsAux_digits (n + 1) n (by omega)) hrest,
    natCharsAux_foldl (n + 1) n 0 (by omega)]
  simp

theorem parseStrChars_escChars (s : List Char) :
    ∀ fuel rest, (escChars s).length < fuel →
      parseStrChars fuel (escChars s ++ '"' :: rest) = some (s, rest) := by
  induction s with
  | nil =>
    intro fuel rest hf
    cases fuel with
    | zero => omega
    | succ f => rfl
  | cons c cs ih =>
    intro fuel rest hf
    rw [escChars] at hf ⊢
    by_cases hc : (c == '"' || c == '\\') = true
    · rw [if_pos hc]
      rw [if_pos hc] at hf
      simp only [List.length_cons] at hf
      cases fuel with
      | zero => omega
      | succ f =>
        simp only [List.cons_append, parseStrChars]
        rw [if_neg (by decide), if_pos (by decide)]
        simp only [List.cons_append, List.append_eq]
        rw [if_pos hc, ih f rest (by omega)]
    · rw [if_neg hc]
      rw [if_neg hc] at hf
      simp only [List.length_cons] at hf
      simp only [Bool.or_eq_true, not_or, Bool.not_eq_true] at hc
      cases fuel with
      | zero => omega
      | succ f =>
        simp only [List.cons_append, parseStrChars, hc.1, hc.2, List.append_eq]
        rw [if_neg (by decide), if_neg (by decide), ih f rest (by omega)]

/-! ### Encoder/decoder roundtrip -/

theorem natChars_shape (m : Nat) :
    ∃ c ds, natChars m = c :: ds ∧ isDigitCh c = true := by
  have hne : natChars m ≠ [] := natCharsAux_ne_nil (m + 1) m (by omega)
  cases h : natChars m with
  | nil => exact absurd h hne
  | cons c ds =>
    refine ⟨c, ds, rfl, ?_⟩
    have := natCharsAux_digits (m + 1) m (by omega) c
    rw [natChars] at h
    exact this (h ▸ List.mem_cons_self c ds)

theorem encodeFields_head (k : String) (v : JsonVal) (fs : List (String × JsonVal)) :
    ∃ t, encodeFields ((k, v) :: fs) = '"' :: t := by
  cases fs with
  | nil =>
    refine ⟨escChars k.data ++ '"' :: ':' :: encodeVal v, ?_⟩
    simp only [encodeFields, encodeEntry]
  | cons e fs' =>
    refine ⟨escChars k.data ++ '"' :: ':' :: encodeVal v ++ ',' :: encodeFields (e :: fs'), ?_⟩
    simp only [encodeFields, encodeEntry]
    simp [List.append_assoc]

mutual

theorem parseVal_encodeVal (v : JsonVal) (fuel : Nat) (rest : List Char)
    (hf : jsize v ≤ fuel) (hrest : noDigitHead rest = true) :
    parseVal fuel (encodeVal v ++ rest) = some (v, rest) := by
  match v with
  | .num n =>
    rw [jsize] at hf
    match fuel, hf with
    | f + 1, _ =>
      rw [encodeVal, intChars]
      by_cases hn : n < 0
      · rw [if_pos hn]
        obtain ⟨c, ds, hsh, hc⟩ := natChars_shape n.natAbs
        have hnat := parseNatAux_natChars n.natAbs rest hrest
        rw [hsh] at hnat ⊢
        have hd1 : ('-' == '"') = false := by decide
        have hd2 : ('-' == '{') = false := by decide
        have hd3 : ('-' == '-') = true := by decide
        simp only [List.cons_append, parseVal, hd1, hd2, hd3, Bool.false_eq_true,
          if_false, if_true, hc, List.cons_append] at hnat ⊢
        rw [hnat]
        have : -((n.natAbs : Nat) : Int) = n := by omega
        rw [this]
      · rw [if_neg hn]
        obtain ⟨c, ds, hsh, hc⟩ := natChars_shape n.natAbs
        have hnat := parseNatAux_natChars n.natAbs rest hrest
        obtain ⟨hne1, hne2, hne3, -⟩ := isDigitCh_ne c hc
        have hd1 : (c == '"') = false := beq_eq_false_iff_ne.mpr hne1
        have hd2 : (c == '{') = false := beq_eq_false_iff_ne.mpr hne2
        have hd3 : (c == '-') = false := beq_eq_false_iff_ne.mpr hne3
        rw [hsh] at hnat ⊢
        simp only [List.cons_append, parseVal, hd1, hd2, hd3, Bool.false_eq_true,
          if_false, hc, if_true, List.cons_append] at hnat ⊢
        rw [hnat]
        have : ((n.natAbs : Nat) : Int) = n := by omega
        rw [this]
  | .str s =>
    rw [jsize] at hf
    match fuel, hf with
    | f + 1, _ =>
      rw [encodeVal]
      have hq : ('"' == '"') = true := by decide
      simp only [List.cons_append, List.append_assoc, List.cons_append, List.nil_append,
        parseVal, hq, if_true]
      rw [parseStrChars_escChars s.data _ rest (by simp; omega)]
  | .obj [] =>
    rw [jsize, jsizeFields] at hf
    match fuel, hf with
    | f + 1, _ =>
      rw [encodeVal, encodeFields]
      have h1 : ('{' == '"') = false := by decide
      have h2 : ('{' == '{') = true := by decide
      have h3 : ('}' == '}') = true := by decide
      simp only [List.nil_append, List.cons_append, parseVal, h1, h2, h3,
        Bool.false_eq_true, if_false, if_true]
  | .obj ((k, w) :: fs') =>
    rw [jsize] at hf
    match fuel, hf with
    | f + 1, hf2 =>
      rw [encodeVal]
      obtain ⟨t, ht⟩ := encodeFields_head k w fs'
      have h1 : ('{' == '"') = false := by decide
      have h2 : ('{' == '{') = true := by decide
      have h3 : ('"' == '}') = false := by decide
      have hfs := parseFields_encodeFields ((k, w) :: fs') (List.cons_ne_nil _ _) f rest
        (by omega)
      rw [ht] at hfs
      simp only [List.cons_append, List.append_assoc, List.cons_append, List.nil_append,
        parseVal, h1, h2, h3, Bool.false_eq_true, if_false, if_true] at hfs ⊢
      rw [ht]
      simp only [List.cons_append, h3, Bool.false_eq_true, if_false, hfs]

theorem parseFields_encodeFields (fs : List (String × JsonVal)) (h0 : fs ≠ [])
    (fuel : Nat) (rest : List Char) (hf : jsizeFields fs ≤ fuel) :
    parseFields fuel (encodeFields fs ++ '}' :: rest) = some (fs, rest) := by
  match fs, h0 with
  | (k, w) :: fs', _ =>
    rw [jsizeFields] at hf
    match fuel, hf with
    | f + 1, hf2 =>
      cases fs' with
      | nil =>
        rw [encodeFields, encodeEntry]
        have hq : ('"' == '"') = true := by decide
        have hcol : (':' == ':') = true := by decide
        have hbr1 : ('}' == ',') = false := by decide
        have hbr2 : ('}' == '}') = true := by decide
        simp only [List.cons_append, List.append_assoc, List.cons_append,
          parseFields, hq, if_true]
        rw [parseStrChars_escChars k.data _ (':' :: (encodeVal w ++ '}' :: rest))
          (by simp; omega)]
        simp only [hcol, if_true]
        rw [parseVal_encodeVal w f ('}' :: rest) (by omega) rfl]
        simp only [hbr1, hbr2, Bool.false_eq_true, if_false, if_true]
      | cons e fs'' =>
        simp only [encodeFields, encodeEntry, List.cons_ne_nil, not_false_iff]
        have hq : ('"' == '"') = true := by decide
        have hcol : (':' == ':') = true := by decide
        have hcom : (',' == ',') = true := by decide
        have hfs := parseFields_encodeFields (e :: fs'') (List.cons_ne_nil _ _) f rest
          (by omega)
        simp only [List.cons_append, List.append_assoc, List.cons_append,
          parseFields, hq, if_true]
        rw [parseStrChars_escChars k.data _
          (':' :: (encodeVal w ++ ',' :: (encodeFields (e :: fs'') ++ '}' :: rest)))
          (by simp; omega)]
        simp only [hcol, if_true]
        rw [parseVal_encodeVal w f (',' :: (encodeFields (e :: fs'') ++ '}' :: rest))
          (by omega) rfl]
        simp only [hcom, if_true, hfs]

end

mutual

theorem jsize_le_length (v : JsonVal) : jsize v ≤ (encodeVal v).length := by
  match v with
  | .num n =>
    rw [jsize, encodeVal, intChars]
    by_cases hn : n < 0
    · rw [if_pos hn]; simp
    · rw [if_neg hn, natChars]
      have := natCharsAux_ne_nil (n.natAbs + 1) n.natAbs (by omega)
      cases h : natCharsAux (n.natAbs + 1) n.natAbs with
      | nil => exact absurd h this
      | cons c ds => simp
  | .str s =>
    rw [jsize, encodeVal]
    simp
  | .obj fs =>
    rw [jsize, encodeVal]
    have := jsizeFields_le_length fs
    simp only [List.length_cons, List.length_append, List.length_singleton]
    omega

theorem jsizeFields_le_length (fs : List (String × JsonVal)) :
    jsizeFields fs ≤ (encodeFields fs).length + 1 := by
  match fs with
  | [] => rw [jsizeFields, encodeFields]; simp
  | [(k, v)] =>
    rw [jsizeFields, jsizeFields, encodeFields, encodeEntry]
    have := jsize_le_length v
    simp only [List.length_cons, List.length_append]
    omega
  | (k, v) :: e :: fs'' =>
    rw [jsizeFields]
    have h1 := jsize_le_length v
    have h2 := jsizeFields_le_length (e :: fs'')
    have h3 : encodeFields ((k, v) :: e :: fs'') =
        encodeEntry k v ++ ',' :: encodeFields (e :: fs'') := by
      simp only [encodeFields, List.cons_ne_nil, not_false_iff]
    rw [h3, encodeEntry]
    simp only [List.length_cons, List.length_append] at h1 h2 ⊢
    omega

end

/-- Roundtrip law for the modelled default serializer: decoding an encoded
value gives the value back. -/
theorem jsonParse_jsonStringify (v : JsonVal) : jsonParse (jsonStringify v) = some v := by
  rw [jsonParse, jsonStringify]
  have hlen : jsize v ≤ (encodeVal v).length + 1 := le_trans (jsize_le_length v) (by omega)
  have h := parseVal_encodeVal v ((encodeVal v).length + 1) [] hlen rfl
  rw [List.append_nil] at h
  simp only [String.length] at h ⊢
  rw [h]

theorem encodeVal_ne_nil (v : JsonVal) : encodeVal v ≠ [] := by
  match v with
  | .num n =>
    rw [encodeVal, intChars]
    by_cases hn : n < 0
    · rw [if_pos hn]; simp
    · rw [if_neg hn]
      exact natCharsAux_ne_nil (n.natAbs + 1) n.natAbs (by omega)
  | .str s => rw [encodeVal]; simp
  | .obj fs => rw [encodeVal]; simp

theorem jsonStringify_ne_empty (v : JsonVal) : jsonStringify v ≠ "" := by
  intro h
  have : (jsonStringify v).data = ("" : String).data := by rw [h]
  rw [jsonStringify] at this
  exact encodeVal_ne_nil v this

/-! ### Store-level helper lemmas -/

theorem lengthStmt_cons (now : Int) (r : Row) (rows : List Row) :
    lengthStmt now (r :: rows) =
      (if now ≤ r.expires_at then 1 else 0) + lengthStmt now rows := by
  rw [lengthStmt, lengthStmt, List.filter_cons]
  by_cases h : now ≤ r.expires_at
  · simp [h]; omega
  · simp [h]

theorem lengthStmt_filter_ne_inactive (rows : List Row) (id : String) (now : Int)
    (h : ∀ x ∈ rows, x.id = id → x.expires_at < now) :
    lengthStmt now (rows.filter (fun x => !(x.id == id))) = lengthStmt now rows := by
  induction rows with
  | nil => rfl
  | cons a t ih =>
    have ht : ∀ x ∈ t, x.id = id → x.expires_at < now :=
      fun x hx => h x (List.mem_cons_of_mem a hx)
    rw [List.filter_cons]
    by_cases ha : a.id = id
    · have hinact : a.expires_at < now := h a (List.mem_cons_self a t) ha
      have hdrop : (!(a.id == id)) = false := by simp [ha]
      rw [hdrop]
      simp only [Bool.false_eq_true, if_false]
      rw [ih ht, lengthStmt_cons, if_neg (by omega)]
      omega
    · have hkeep : (!(a.id == id)) = true := by simp [ha]
      rw [hkeep]
      simp only [if_true]
      rw [lengthStmt_cons, lengthStmt_cons, ih ht]

theorem lengthStmt_filter_ne_active (rows : List Row) (id : String) (now : Int)
    (hnd : (rows.map Row.id).Nodup) (r0 : Row) (hmem : r0 ∈ rows) (hid : r0.id = id)
    (hact : now ≤ r0.expires_at) :
    lengthStmt now (rows.filter (fun x => !(x.id == id))) + 1 = lengthStmt now rows := by
  induction rows with
  | nil => cases hmem
  | cons a t ih =>
    rw [List.map_cons, List.nodup_cons] at hnd
    rcases List.mem_cons.mp hmem with rfl | hmem'
    · have hdrop : (!(r0.id == id)) = false := by simp [hid]
      rw [List.filter_cons, hdrop]
      simp only [Bool.false_eq_true, if_false]
      have hfix : t.filter (fun x => !(x.id == id)) = t := by
        rw [List.filter_eq_self]
        intro x hx
        have hne : x.id ≠ id := by
          intro he
          exact hnd.1 (by rw [hid, ← he]; exact List.mem_map_of_mem Row.id hx)
        simp [hne]
      rw [hfix, lengthStmt_cons, if_pos hact]
      omega
    · have hane : a.id ≠ id := by
        intro he
        apply hnd.1
        rw [he, ← hid]
        exact List.mem_map_of_mem Row.id hmem'
      have hkeep : (!(a.id == id)) = true := by simp [hane]
      rw [List.filter_cons, hkeep]
      simp only [if_true]
      rw [lengthStmt_cons, lengthStmt_cons]
      have := ih hnd.2 hmem'
      omega

theorem getTTL_hint_num (ttl0 n : Int) (sess : JsonVal)
    (hh : maxAgeHint sess = some (.num n)) (hn : n ≠ 0) : _getTTL ttl0 sess = n := by
  cases sess with
  | num m => exact Option.noConfusion hh
  | str s => exact Option.noConfusion hh
  | obj fs =>
    have hh0 : (lookupField fs "cookie").bind (fun c => getProp c "maxAge")
        = some (JsonVal.num n) := hh
    cases hc : lookupField fs "cookie" with
    | none => rw [hc] at hh0; exact Option.noConfusion hh0
    | some c =>
      rw [hc] at hh0
      have hh1 : getProp c "maxAge" = some (JsonVal.num n) := hh0
      cases c with
      | num m => exact Option.noConfusion hh1
      | str s => exact Option.noConfusion hh1
      | obj cfs =>
        have hbody : _getTTL ttl0 (JsonVal.obj fs) =
            (match lookupField fs "cookie" with
             | some cookie =>
               if jsTruthy cookie then
                 (match getProp cookie "maxAge" with
                  | some (.num k) => if k == 0 then ttl0 else k
                  | _ => ttl0)
               else ttl0
             | none => ttl0) := rfl
        rw [hbody, hc]
        show (if jsTruthy (JsonVal.obj cfs) then _ else _) = n
        rw [if_pos (by rfl)]
        show (match getProp (JsonVal.obj cfs) "maxAge" with
              | some (.num k) => if k == 0 then ttl0 else k
              | _ => ttl0) = n
        rw [hh1]
        show (if (n == 0) = true then ttl0 else n) = n
        rw [if_neg (by simp [hn])]

theorem getTTL_hint_zero (ttl0 : Int) (sess : JsonVal)
    (hh : maxAgeHint sess = some (.num 0)) : _getTTL ttl0 sess = ttl0 := by
  cases sess with
  | num m => exact Option.noConfusion hh
  | str s => exact Option.noConfusion hh
  | obj fs =>
    have hh0 : (lookupField fs "cookie").bind (fun c => getProp c "maxAge")
        = some (JsonVal.num 0) := hh
    cases hc : lookupField fs "cookie" with
    | none => rw [hc] at hh0; exact Option.noConfusion hh0
    | some c =>
      rw [hc] at hh0
      have hh1 : getProp c "maxAge" = some (JsonVal.num 0) := hh0
      cases c with
      | num m => exact Option.noConfusion hh1
      | str s => exact Option.noConfusion hh1
      | obj cfs =>
        have hbody : _getTTL ttl0 (JsonVal.obj fs) =
            (match lookupField fs "cookie" with
             | some cookie =>
               if jsTruthy cookie then
                 (match getProp cookie "maxAge" with
                  | some (.num k) => if k == 0 then ttl0 else k
                  | _ => ttl0)
               else ttl0
             | none => ttl0) := rfl
        rw [hbody, hc]
        show (if jsTruthy (JsonVal.obj cfs) then _ else _) = ttl0
        rw [if_pos (by rfl)]
        show (match getProp (JsonVal.obj cfs) "maxAge" with
              | some (.num k) => if k == 0 then ttl0 else k
              | _ => ttl0) = ttl0
        rw [hh1]
        show (if ((0 : Int) == 0) = true then ttl0 else (0 : Int)) = ttl0
        rw [if_pos (by decide)]

theorem getTTL_hint_none (ttl0 : Int) (sess : JsonVal)
    (hh : maxAgeHint sess = none) : _getTTL ttl0 sess = ttl0 := by
  cases sess with
  | num m =>
    have hbody : _getTTL ttl0 (JsonVal.num m) =
        (if jsTruthy (JsonVal.num m) then ttl0 else ttl0) := rfl
    rw [hbody, ite_self]
  | str s =>
    have hbody : _getTTL ttl0 (JsonVal.str s) =
        (if jsTruthy (JsonVal.str s) then ttl0 else ttl0) := rfl
    rw [hbody, ite_self]
  | obj fs =>
    have hh0 : (lookupField fs "cookie").bind (fun c => getProp c "maxAge") = none := hh
    have hbody : _getTTL ttl0 (JsonVal.obj fs) =
        (match lookupField fs "cookie" with
         | some cookie =>
           if jsTruthy cookie then
             (match getProp cookie "maxAge" with
              | some (.num k) => if k == 0 then ttl0 else k
              | _ => ttl0)
           else ttl0
         | none => ttl0) := rfl
    rw [hbody]
    cases hc : lookupField fs "cookie" with
    | none => rfl
    | some c =>
      rw [hc] at hh0
      have hh1 : getProp c "maxAge" = none := hh0
      cases c with
      | num m =>
        show (if jsTruthy (JsonVal.num m) = true then ttl0 else ttl0) = ttl0
        rw [ite_self]
      | str s =>
        show (if jsTruthy (JsonVal.str s) = true then ttl0 else ttl0) = ttl0
        rw [ite_self]
      | obj cfs =>
        show (if jsTruthy (JsonVal.obj cfs) then _ else _) = ttl0
        rw [if_pos (by rfl)]
        show (match getProp (JsonVal.obj cfs) "maxAge" with
              | some (.num k) => if k == 0 then ttl0 else k
              | _ => ttl0) = ttl0
        rw [hh1]

theorem set_snd (S : Serializer) (st : Store) (now : Int) (id : String) (sess : JsonVal)
    (h : st.dbOpen = true) :
    (set S now id sess st).2 =
      { st with rows := setStmt id (now + _getTTL st.ttl sess) (S.stringify sess) st.rows } := by
  show (if st.dbOpen then
      ((some () : Option Unit),
        ({ st with rows :=
            setStmt id (now + _getTTL st.ttl sess) (S.stringify sess) st.rows } : Store))
    else (none, st)).2 = _
  rw [if_pos h]

theorem touch_eval (st : Store) (now : Int) (id : String) (sess : JsonVal)
    (h : st.dbOpen = true) :
    touch now id sess st =
      (some (), { st with rows := touchStmt (now + _getTTL st.ttl sess) id now st.rows }) := by
  show (if st.dbOpen then
      ((some () : Option Unit),
        ({ st with rows := touchStmt (now + _getTTL st.ttl sess) id now st.rows } : Store))
    else (none, st)) = _
  rw [if_pos h]

theorem gc_eval (st : Store) (now : Int) (h : st.dbOpen = true) :
    gc now st = some { st with rows := gcStmt now st.rows } := by
  simp [gc, h]

theorem length_eval (st : Store) (now : Int) (h : st.dbOpen = true) :
    length now st = some (lengthStmt now st.rows) := by
  show (if st.dbOpen then some (lengthStmt now st.rows) else none) = _
  rw [if_pos h]

theorem get_eval (S : Serializer) (now : Int) (id : String) (st : Store)
    (h : st.dbOpen = true) :
    get S now id st =
      (match getStmt id now st.rows with
       | none => .absent
       | some data =>
         if data == "" then .absent
         else
           match S.parse data with
           | some v => .value v
           | none => .error) := by
  show (if st.dbOpen then
      (match getStmt id now st.rows with
       | none => GetResult.absent
       | some data =>
         if data == "" then GetResult.absent
         else
           match S.parse data with
           | some v => GetResult.value v
           | none => GetResult.error)
    else GetResult.error) = _
  rw [if_pos h]

/-- Claim C10: the store selects the transient in-memory database exactly when
the configured filename contains the substring `:memory:` anywhere — a
filename like `my:memory:file.db` also becomes in-memory and no file path is
formed from `dir` and `filename`. -/
theorem c10_memory_marker (dir f : String) :
    (dbPath dir f = ":memory:" ↔ containsSub ":memory:".data f.data = true) ∧
    dbPath "/tmp" "my:memory:file.db" = ":memory:" := by
  constructor
  · by_cases hc : containsSub ":memory:".data f.data = true
    · rw [dbPath, if_pos hc]
      exact ⟨fun _ => hc, fun _ => rfl⟩
    · rw [dbPath, if_neg hc]
      constructor
      · intro he
        exfalso
        have hmem : '/' ∈ (pathJoin dir f).data := by
          rw [pathJoin, String.data_append (dir ++ "/") f, String.data_append dir "/"]
          exact List.mem_append.mpr (Or.inl (List.mem_append.mpr (Or.inr (by decide))))
        rw [he] at hmem
        exact absurd hmem (by decide)
      · intro hcc
        exact absurd hcc hc
  · rfl

/-- Claim C7 (refuted by the code): the gc timer is started at construction,
but `close()` only runs `this.db.close()` and never clears `this.interval`, so
after `close()` the daily sweep remains scheduled and will still execute. -/
theorem c7_timer_survives_close :
    (mkStore {}).timerActive = true ∧
    (close (mkStore {})).dbOpen = false ∧
    (close (mkStore {})).timerActive = true :=
  ⟨rfl, rfl, rfl⟩

/-- Claim C4 (refuted by the code): `gc()` has no `try/catch`, so an engine
error during a sweep — here, the sweep that the still-scheduled timer runs
after `close()` — propagates out of the timer callback instead of being
contained. -/
theorem c4_gc_error_escapes :
    (close (mkStore {})).timerActive = true ∧
    gc 0 (close (mkStore {})) = none :=
  ⟨rfl, rfl⟩

/-- Claim C6 counterexample: a value carrying the numeric hint
`cookie.maxAge = 0` does not get TTL `0`; the falsy check makes the store use
its default TTL instead. -/
theorem c6_counterexample :
    maxAgeHint (.obj [("cookie", .obj [("maxAge", .num 0)])]) = some (.num 0) ∧
    _getTTL 86400000 (.obj [("cookie", .obj [("maxAge", .num 0)])]) = 86400000 ∧
    (86400000 : Int) ≠ 0 :=
  ⟨rfl, rfl, by norm_num⟩

/-- Claim C6 (amended): the TTL used by `set` and `touch` equals the numeric
`v.cookie.maxAge` when that hint is present and truthy (nonzero); a hint of
`0` and an absent hint both give the store's configured default TTL; and the
row written by `set` has `expires_at = now + TTL`. -/
theorem c6_ttl_rule (ttl0 n now : Int) (sess : JsonVal) (S : Serializer) (st : Store)
    (id : String) (h : st.dbOpen = true) :
    (maxAgeHint sess = some (.num n) → n ≠ 0 → _getTTL ttl0 sess = n) ∧
    (maxAgeHint sess = some (.num 0) → _getTTL ttl0 sess = ttl0) ∧
    (maxAgeHint sess = none → _getTTL ttl0 sess = ttl0) ∧
    (⟨id, now + _getTTL st.ttl sess, S.stringify sess⟩ : Row) ∈ (set S now id sess st).2.rows := by
  refine ⟨fun hh hn => getTTL_hint_num ttl0 n sess hh hn,
    fun hh => getTTL_hint_zero ttl0 sess hh,
    fun hh => getTTL_hint_none ttl0 sess hh, ?_⟩
  rw [set_snd S st now id sess h, setStmt]
  exact List.mem_cons_self _ _

/-- Claim C6 witness: a truthy numeric hint of `7` against a default of `5`
yields TTL `7`, and the row `set` writes carries `expires_at = now + 7`. -/
theorem c6_ttl_rule_witness :
    _getTTL 5 (.obj [("cookie", .obj [("maxAge", .num 7)])]) = 7 ∧
    (⟨"s", 7, jsonSerializer.stringify (.obj [("cookie", .obj [("maxAge", .num 7)])])⟩ : Row) ∈
      (set jsonSerializer 0 "s" (.obj [("cookie", .obj [("maxAge", .num 7)])])
        { rows := [], ttl := 5, dbOpen := true, timerActive := true }).2.rows := by
  have H := c6_ttl_rule 5 7 0 (.obj [("cookie", .obj [("maxAge", .num 7)])]) jsonSerializer
    { rows := [], ttl := 5, dbOpen := true, timerActive := true } "s" rfl
  exact ⟨H.1 rfl (by norm_num), H.2.2.2⟩

/-- Claim C8 counterexample: an active row whose stored payload is the empty
string cannot be decoded by `JSON.parse`, yet `get` reports the non-error
absent result (the falsy `!data` check short-circuits before decoding). -/
theorem c8_counterexample :
    jsonParse "" = none ∧
    get jsonSerializer 50 "a"
      { rows := [⟨"a", 100, ""⟩], ttl := 86400000, dbOpen := true, timerActive := true } =
      .absent ∧
    (50 : Int) ≤ 100 :=
  ⟨rfl, rfl, by norm_num⟩

/-- Claim C8 (amended): `get` yields the non-error absent result when no
active row matches and also when the active row's payload is falsy (empty);
for a nonempty payload it yields an error exactly when the serializer fails to
decode it, and the decoded value otherwise. -/
theorem c8_get_outcomes (S : Serializer) (now : Int) (id : String) (st : Store)
    (r : Row) (v : JsonVal) (h : st.dbOpen = true) :
    (st.rows.find? (fun x => x.id == id && decide (now ≤ x.expires_at)) = none →
      get S now id st = .absent) ∧
    (st.rows.find? (fun x => x.id == id && decide (now ≤ x.expires_at)) = some r →
      r.data = "" → get S now id st = .absent) ∧
    (st.rows.find? (fun x => x.id == id && decide (now ≤ x.expires_at)) = some r →
      r.data ≠ "" → S.parse r.data = none → get S now id st = .error) ∧
    (st.rows.find? (fun x => x.id == id && decide (now ≤ x.expires_at)) = some r →
      r.data ≠ "" → S.parse r.data = some v → get S now id st = .value v) := by
  rw [get_eval S now id st h, getStmt]
  refine ⟨?_, ?_, ?_, ?_⟩
  · intro hf
    rw [hf]
    rfl
  · intro hf hd
    rw [hf]
    simp [hd]
  · intro hf hd hp
    have hdb : (r.data == "") = false := beq_eq_false_iff_ne.mpr hd
    rw [hf]
    simp [hdb, hp]
  · intro hf hd hp
    have hdb : (r.data == "") = false := beq_eq_false_iff_ne.mpr hd
    rw [hf]
    simp [hdb, hp]

/-- Claim C8 witness: an active row with undecodable payload `X` makes `get`
yield the error outcome. -/
theorem c8_get_outcomes_witness :
    get jsonSerializer 50 "a"
      { rows := [⟨"a", 100, "X"⟩], ttl := 86400000, dbOpen := true, timerActive := true } =
      .error := by
  have H := c8_get_outcomes jsonSerializer 50 "a"
    { rows := [⟨"a", 100, "X"⟩], ttl := 86400000, dbOpen := true, timerActive := true }
    ⟨"a", 100, "X"⟩ (.num 0) rfl
  exact H.2.2.1 rfl (by decide) rfl

/-- Claim C2 counterexample: for an active row with a large stored
`expires_at`, a touch carrying a small `cookie.maxAge` hint rewrites
`expires_at` to `now + ttl`, strictly decreasing it — the claim's "strictly
increases" fails. -/
theorem c2_counterexample :
    (10 : Int) ≤ 1000 ∧
    touch 10 "a" (.obj [("cookie", .obj [("maxAge", .num 5)])])
      { rows := [⟨"a", 1000, "d"⟩], ttl := ONE_DAY, dbOpen := true, timerActive := true } =
      (some (), { rows := [⟨"a", 15, "d"⟩], ttl := ONE_DAY, dbOpen := true, timerActive := true }) ∧
    ¬ (1000 : Int) < 15 := by
  refine ⟨by norm_num, ?_, by norm_num⟩
  rfl

/-- Claim C2 (amended): `touch(id, v)` reports no error; it sets an active
row's `expires_at` to `now + ttl(v)` — which strictly increases it exactly
when `now + ttl(v)` exceeds the stored value, and can also lower it — and for
an id with no active row it leaves the table unchanged. -/
theorem c2_touch_semantics (st : Store) (now : Int) (id : String) (sess : JsonVal) (r : Row)
    (h : st.dbOpen = true) :
    (touch now id sess st).1 = some () ∧
    (r ∈ st.rows → r.id = id → now ≤ r.expires_at →
      ({ r with expires_at := now + _getTTL st.ttl sess } : Row) ∈
        (touch now id sess st).2.rows) ∧
    (st.rows.find? (fun x => x.id == id && decide (now ≤ x.expires_at)) = none →
      (touch now id sess st).2 = st) := by
  rw [touch_eval st now id sess h]
  refine ⟨rfl, ?_, ?_⟩
  · intro hmem hid hact
    show _ ∈ touchStmt (now + _getTTL st.ttl sess) id now st.rows
    rw [touchStmt]
    have hpred : (r.id == id && decide (now ≤ r.expires_at)) = true := by
      simp [hid, hact]
    have hfr : (fun x => if x.id == id && decide (now ≤ x.expires_at)
        then { x with expires_at := now + _getTTL st.ttl sess } else x) r =
        { r with expires_at := now + _getTTL st.ttl sess } := by
      exact if_pos hpred
    exact hfr ▸ List.mem_map_of_mem _ hmem
  · intro hnone
    have hall := List.find?_eq_none.mp hnone
    have hmap : touchStmt (now + _getTTL st.ttl sess) id now st.rows = st.rows := by
      rw [touchStmt]
      apply map_eq_self_of
      intro a ha
      exact if_neg (hall a ha)
    rw [hmap]

/-- Claim C2 witness: with the default TTL path, touching an active row moves
its expiry to `now + ttl`, and touching a non-existent id is a no-op with no
error. -/
theorem c2_touch_semantics_witness :
    (touch 10 "a" (.num 1)
      { rows := [⟨"a", 100, "d"⟩], ttl := 50, dbOpen := true, timerActive := true }).1 = some () ∧
    (⟨"a", 60, "d"⟩ : Row) ∈ (touch 10 "a" (.num 1)
      { rows := [⟨"a", 100, "d"⟩], ttl := 50, dbOpen := true, timerActive := true }).2.rows ∧
    (touch 10 "z" (.num 1)
      { rows := [⟨"a", 100, "d"⟩], ttl := 50, dbOpen := true, timerActive := true }).2 =
      { rows := [⟨"a", 100, "d"⟩], ttl := 50, dbOpen := true, timerActive := true } := by
  have H1 := c2_touch_semantics
    { rows := [⟨"a", 100, "d"⟩], ttl := 50, dbOpen := true, timerActive := true }
    10 "a" (.num 1) ⟨"a", 100, "d"⟩ rfl
  have H2 := c2_touch_semantics
    { rows := [⟨"a", 100, "d"⟩], ttl := 50, dbOpen := true, timerActive := true }
    10 "z" (.num 1) ⟨"a", 100, "d"⟩ rfl
  refine ⟨H1.1, ?_, H2.2.2 rfl⟩
  exact H1.2.1 (List.mem_cons_self _ _) rfl (by norm_num)

/-- Claim C3: a garbage-collection sweep at time `now` keeps exactly the rows
with `expires_at ≥ now`, reports no error, leaves `length()` unchanged, and
leaves the outcome of every `get` unchanged (in particular every previously
active id still succeeds). -/
theorem c3_gc_sweep (st : Store) (now : Int) (r : Row) (qid : String) (S : Serializer)
    (h : st.dbOpen = true) :
    (gc now st).isSome = true ∧
    (r ∈ ((gc now st).getD st).rows ↔ r ∈ st.rows ∧ ¬ r.expires_at < now) ∧
    length now ((gc now st).getD st) = length now st ∧
    get S now qid ((gc now st).getD st) = get S now qid st := by
  rw [gc_eval st now h, Option.getD_some]
  refine ⟨rfl, ?_, ?_, ?_⟩
  · show r ∈ gcStmt now st.rows ↔ _
    rw [gcStmt, List.mem_filter]
    simp
  · rw [length_eval st now h,
      length_eval { st with rows := gcStmt now st.rows } now h]
    congr 1
    show lengthStmt now (gcStmt now st.rows) = lengthStmt now st.rows
    rw [lengthStmt, lengthStmt, gcStmt, filter_filter_of_imp]
    intro a ha
    simp only [decide_eq_true_eq] at ha
    simp only [Bool.not_eq_true', decide_eq_false_iff_not]
    omega
  · rw [get_eval S now qid st h,
      get_eval S now qid { st with rows := gcStmt now st.rows } h]
    have hstmt : getStmt qid now (gcStmt now st.rows) = getStmt qid now st.rows := by
      rw [getStmt, getStmt, gcStmt, find?_filter_of_imp]
      intro a ha
      rw [Bool.and_eq_true] at ha
      have h2 : now ≤ a.expires_at := by simpa using ha.2
      simp only [Bool.not_eq_true', decide_eq_false_iff_not]
      omega
    show (match getStmt qid now (gcStmt now st.rows) with
          | none => GetResult.absent
          | some data =>
            if data == "" then GetResult.absent
            else
              match S.parse data with
              | some v => GetResult.value v
              | none => GetResult.error) = _
    rw [hstmt]

/-- Claim C3 witness: sweeping a table with one active and one expired row
drops only the expired one; the count and the `get` outcome are unchanged. -/
theorem c3_gc_sweep_witness :
    (gc 10 { rows := [⟨"a", 100, "p"⟩, ⟨"b", 3, "q"⟩], ttl := 50, dbOpen := true, timerActive := true }).isSome = true ∧
    ((⟨"b", 3, "q"⟩ : Row) ∈ ((gc 10 { rows := [⟨"a", 100, "p"⟩, ⟨"b", 3, "q"⟩], ttl := 50, dbOpen := true, timerActive := true }).getD { rows := [⟨"a", 100, "p"⟩, ⟨"b", 3, "q"⟩], ttl := 50, dbOpen := true, timerActive := true }).rows ↔
      (⟨"b", 3, "q"⟩ : Row) ∈ ({ rows := [⟨"a", 100, "p"⟩, ⟨"b", 3, "q"⟩], ttl := 50, dbOpen := true, timerActive := true } : Store).rows ∧ ¬ (3 : Int) < 10) ∧
    length 10 ((gc 10 { rows := [⟨"a", 100, "p"⟩, ⟨"b", 3, "q"⟩], ttl := 50, dbOpen := true, timerActive := true }).getD { rows := [⟨"a", 100, "p"⟩, ⟨"b", 3, "q"⟩], ttl := 50, dbOpen := true, timerActive := true }) =
      length 10 { rows := [⟨"a", 100, "p"⟩, ⟨"b", 3, "q"⟩], ttl := 50, dbOpen := true, timerActive := true } ∧
    get jsonSerializer 10 "a" ((gc 10 { rows := [⟨"a", 100, "p"⟩, ⟨"b", 3, "q"⟩], ttl := 50, dbOpen := true, timerActive := true }).getD { rows := [⟨"a", 100, "p"⟩, ⟨"b", 3, "q"⟩], ttl := 50, dbOpen := true, timerActive := true }) =
      get jsonSerializer 10 "a" { rows := [⟨"a", 100, "p"⟩, ⟨"b", 3, "q"⟩], ttl := 50, dbOpen := true, timerActive := true } :=
  c3_gc_sweep
    { rows := [⟨"a", 100, "p"⟩, ⟨"b", 3, "q"⟩], ttl := 50, dbOpen := true, timerActive := true }
    10 ⟨"b", 3, "q"⟩ "a" jsonSerializer rfl

/-- Claim C5 counterexample: a nested object carrying a negative
`cookie.maxAge` is set with an already-past `expires_at`, so the immediate
`get` yields absent, not a value deep-equal to the stored object. -/
theorem c5_counterexample :
    get jsonSerializer 0 "a"
      (set jsonSerializer 0 "a" (.obj [("cookie", .obj [("maxAge", .num (-1))])])
        (mkStore {})).2 = .absent ∧
    (GetResult.absent = GetResult.value (.obj [("cookie", .obj [("maxAge", .num (-1))])]) →
      False) :=
  ⟨rfl, fun hcon => GetResult.noConfusion hcon⟩

/-- Claim C5 (amended): for every value `v` — number, string or nested
object — whose effective TTL (`cookie.maxAge` hint, else the store default)
is nonnegative, `set(id, v)` followed immediately by `get(id)` under the
default JSON serializer returns a value structurally equal to `v`. -/
theorem c5_set_get_roundtrip (st : Store) (now : Int) (id : String) (v : JsonVal)
    (h : st.dbOpen = true) (httl : 0 ≤ _getTTL st.ttl v) :
    get jsonSerializer now id (set jsonSerializer now id v st).2 = .value v := by
  rw [set_snd jsonSerializer st now id v h]
  rw [get_eval jsonSerializer now id
    { st with rows := setStmt id (now + _getTTL st.ttl v) (jsonSerializer.stringify v) st.rows } h]
  have hpred : (fun r : Row => r.id == id && decide (now ≤ r.expires_at))
      (⟨id, now + _getTTL st.ttl v, jsonSerializer.stringify v⟩ : Row) = true := by
    show ((⟨id, now + _getTTL st.ttl v, jsonSerializer.stringify v⟩ : Row).id == id &&
      decide (now ≤ (⟨id, now + _getTTL st.ttl v,
        jsonSerializer.stringify v⟩ : Row).expires_at)) = true
    simp only [beq_self_eq_true, Bool.true_and, decide_eq_true_eq]
    show now ≤ now + _getTTL st.ttl v
    omega
  have hstmt : getStmt id now
      (setStmt id (now + _getTTL st.ttl v) (jsonSerializer.stringify v) st.rows) =
      some (jsonSerializer.stringify v) := by
    rw [getStmt, setStmt,
      @List.find?_cons_of_pos Row (fun r => r.id == id && decide (now ≤ r.expires_at))
        ⟨id, now + _getTTL st.ttl v, jsonSerializer.stringify v⟩
        (st.rows.filter (fun r => !(r.id == id))) hpred]
    rfl
  show (match getStmt id now
        (setStmt id (now + _getTTL st.ttl v) (jsonSerializer.stringify v) st.rows) with
      | none => GetResult.absent
      | some data =>
        if data == "" then GetResult.absent
        else
          match jsonSerializer.parse data with
          | some w => GetResult.value w
          | none => GetResult.error) = GetResult.value v
  rw [hstmt]
  have hne : (jsonSerializer.stringify v == "") = false :=
    beq_eq_false_iff_ne.mpr (jsonStringify_ne_empty v)
  show (if (jsonSerializer.stringify v == "") = true then GetResult.absent
      else
        match jsonSerializer.parse (jsonSerializer.stringify v) with
        | some w => GetResult.value w
        | none => GetResult.error) = GetResult.value v
  rw [if_neg (by simp [hne])]
  have hp : jsonSerializer.parse (jsonSerializer.stringify v) = some v :=
    jsonParse_jsonStringify v
  rw [hp]

/-- Claim C5 witness: a string value round-trips through `set` then `get` at
the default TTL. -/
theorem c5_set_get_roundtrip_witness :
    get jsonSerializer 7 "sid" (set jsonSerializer 7 "sid" (.str "hi") (mkStore {})).2 =
      .value (.str "hi") :=
  c5_set_get_roundtrip (mkStore {}) 7 "sid" (.str "hi") rfl (by decide)

/-- Claim C9 counterexample: a row with the same id already existed (expired),
yet `set` increases `length()` from 0 to 1 — the claim's "unchanged when a
row with that id already existed" fails. -/
theorem c9_counterexample :
    (⟨"a", 5, "x"⟩ : Row) ∈
      ({ rows := [⟨"a", 5, "x"⟩], ttl := ONE_DAY, dbOpen := true, timerActive := true } : Store).rows ∧
    length 10 { rows := [⟨"a", 5, "x"⟩], ttl := ONE_DAY, dbOpen := true, timerActive := true } = some 0 ∧
    length 10 (set jsonSerializer 10 "a" (.num 1)
      { rows := [⟨"a", 5, "x"⟩], ttl := ONE_DAY, dbOpen := true, timerActive := true }).2 = some 1 :=
  ⟨List.mem_cons_self _ _, rfl, rfl⟩

/-- Claim C9 (amended): with distinct row ids and a nonnegative TTL, `set`
increases `length()` by exactly 1 when no **active** row with that id existed,
and leaves `length()` unchanged when an active row with that id existed
(replacing an expired row still adds one to the active count). -/
theorem c9_length_after_set (S : Serializer) (st : Store) (now : Int) (id : String)
    (sess : JsonVal) (h : st.dbOpen = true) (hnd : (st.rows.map Row.id).Nodup)
    (httl : 0 ≤ _getTTL st.ttl sess) :
    ((st.rows.find? (fun x => x.id == id && decide (now ≤ x.expires_at))).isSome = false →
      length now (set S now id sess st).2 = some (lengthStmt now st.rows + 1)) ∧
    ((st.rows.find? (fun x => x.id == id && decide (now ≤ x.expires_at))).isSome = true →
      length now (set S now id sess st).2 = some (lengthStmt now st.rows)) := by
  rw [set_snd S st now id sess h,
    length_eval { st with rows := setStmt id (now + _getTTL st.ttl sess) (S.stringify sess) st.rows } now h]
  have hrow : (decide (now ≤ (⟨id, now + _getTTL st.ttl sess,
      S.stringify sess⟩ : Row).expires_at)) = true := by
    simp only [decide_eq_true_eq]
    show now ≤ now + _getTTL st.ttl sess
    omega
  constructor
  · intro hnone
    have hn2 : st.rows.find? (fun x => x.id == id && decide (now ≤ x.expires_at)) = none := by
      cases hF : st.rows.find? (fun x => x.id == id && decide (now ≤ x.expires_at)) with
      | none => rfl
      | some r0 => rw [hF] at hnone; simp at hnone
    have hall := List.find?_eq_none.mp hn2
    congr 1
    show lengthStmt now
      (setStmt id (now + _getTTL st.ttl sess) (S.stringify sess) st.rows) = _
    rw [setStmt, lengthStmt, List.filter_cons, hrow, if_pos rfl, List.length_cons]
    show lengthStmt now (st.rows.filter (fun r => !(r.id == id))) + 1 = _
    rw [lengthStmt_filter_ne_inactive st.rows id now]
    intro x hx hxid
    have hnp := hall x hx
    simp only [hxid, beq_self_eq_true, Bool.true_and, decide_eq_true_eq] at hnp
    omega
  · intro hsome
    obtain ⟨r0, hr0⟩ := Option.isSome_iff_exists.mp hsome
    have hmem := List.mem_of_find?_eq_some hr0
    have hp := List.find?_some hr0
    rw [Bool.and_eq_true] at hp
    have hid : r0.id = id := by simpa using hp.1
    have hact : now ≤ r0.expires_at := by simpa using hp.2
    congr 1
    show lengthStmt now
      (setStmt id (now + _getTTL st.ttl sess) (S.stringify sess) st.rows) = _
    rw [setStmt, lengthStmt, List.filter_cons, hrow, if_pos rfl, List.length_cons]
    show lengthStmt now (st.rows.filter (fun r => !(r.id == id))) + 1 = _
    exact lengthStmt_filter_ne_active st.rows id now hnd r0 hmem hid hact

/-- Claim C9 witness: setting a fresh id next to one unrelated active row
takes the active count from 1 to 2. -/
theorem c9_length_after_set_witness :
    length 10 (set jsonSerializer 10 "a" (.num 2)
      { rows := [⟨"b", 100, "p"⟩], ttl := 86400000, dbOpen := true, timerActive := true }).2 = some 2 := by
  have H := c9_length_after_set jsonSerializer
    { rows := [⟨"b", 100, "p"⟩], ttl := 86400000, dbOpen := true, timerActive := true }
    10 "a" (.num 2) rfl (by decide) (by decide)
  exact H.1 rfl

/-- Claim C1 (refuted by the code): `get` decodes through the configured
serializer, but `all()` decodes every payload with the hard-coded `JSON.parse`
(`.map((s) => JSON.parse(s))`), so with a non-JSON serializer installed the
same stored session is returned by `get` yet makes `all()` fail. -/
theorem c1_all_ignores_serializer :
    get xSerializer 0 "a" (set xSerializer 0 "a" (.num 1) (mkStore {})).2 =
      .value (.num 1) ∧
    all 0 (set xSerializer 0 "a" (.num 1) (mkStore {})).2 = none := by
  have hs : jsonStringify (.num 1) = "1" := by
    simp only [jsonStringify, encodeVal]
    rfl
  have hx : xSerializer.stringify (.num 1) = "X1" := by
    show (⟨'X' :: (jsonStringify (.num 1)).data⟩ : String) = "X1"
    rw [hs]
  have hst : (set xSerializer 0 "a" (.num 1) (mkStore {})).2 =
      { rows := [⟨"a", 86400000, "X1"⟩], ttl := 86400000, dbOpen := true,
        timerActive := true } := by
    rw [set_snd xSerializer (mkStore {}) 0 "a" (.num 1) rfl, setStmt, hx]
    rfl
  rw [hst]
  exact ⟨rfl, rfl⟩

end CBS
